import Mathlib

/-!
Shallow embedding of the reddit-scraper collection pipeline.

Strings are modelled as lists of characters (`Str`).  The CSV reader is
modelled by taking as input the list of records it returns without error,
in order: Go's `encoding/csv` skips blank lines and enforces a uniform
field count, so every record it hands back is a nonempty list of fields.
The `created_utc` field of a Post is a `float64` in the source and carries
no pipeline logic; it is not modelled.
-/

namespace RedditScraper

abbrev Str := List Char

/-- `strings.ToLower` on the character-list model. -/
def toLower (s : Str) : Str := s.map Char.toLower

/-- `strings.TrimSpace`: drop whitespace from both ends. -/
def trimSpace (s : Str) : Str :=
  ((s.dropWhile Char.isWhitespace).reverse.dropWhile Char.isWhitespace).reverse

/-- `strings.Contains s sub`: substring containment. -/
def containsSub (s sub : Str) : Bool := decide (sub <:+: s)

/-- `domain.Target`: one scraping task. -/
structure Target where
  subreddit : Str
  minScore : Int
deriving DecidableEq, Repr

/-- `domain.Post` (the `created_utc` float is not modelled; no claim uses it). -/
structure Post where
  id : Str
  title : Str
  subreddit : Str
  author : Str
  url : Str
  score : Int
  commentCount : Int
  keywordsHit : List Str
deriving DecidableEq, Repr

/-! ### ingest package -/

/-- The regex `[A-Za-z0-9_]{3,21}` anchored at both ends
    (`Char.isAlphanum` is exactly ASCII letters and digits). -/
def subNameOk (s : Str) : Bool :=
  decide (3 ≤ s.length) && decide (s.length ≤ 21) &&
    s.all (fun c => c.isAlphanum || c == '_')

/-- Digit-string parse: `none` if empty or any non-digit. -/
def digitsToNat (s : Str) : Option Nat :=
  if s ≠ [] && s.all Char.isDigit then
    some (s.foldl (fun acc c => acc * 10 + (c.toNat - 48)) 0)
  else none

/-- `strconv.Atoi`: optional sign then digits, `none` on any parse failure. -/
def atoi (s : Str) : Option Int :=
  match s with
  | '+' :: rest => (digitsToNat rest).map Int.ofNat
  | '-' :: rest => (digitsToNat rest).map (fun n => -(n : Int))
  | _ => (digitsToNat s).map Int.ofNat

/-- One CSV record: its list of fields. -/
abbrev Row := List Str

/-- One data row of `LoadTargets`' loop: trim the first field, drop the row
    when the subreddit-name regex rejects it, otherwise build a Target whose
    MinScore is `strconv.Atoi` of the trimmed second field with the parse
    error discarded (`score, _ := strconv.Atoi(...)` yields 0 on failure). -/
def rowToTarget (rec : Row) : Option Target :=
  let sub := trimSpace (rec.headD [])
  if subNameOk sub then
    some { subreddit := sub, minScore := (atoi (trimSpace (rec.getD 1 []))).getD 0 }
  else none

/-- `ingest.LoadTargets` over the records the CSV reader returns:
    the first record is skipped as the header (`if line == 1 { continue }`),
    every later record goes through `rowToTarget`. -/
def LoadTargets : List Row → List Target
  | [] => []
  | _hdr :: rest => rest.filterMap rowToTarget

/-- `ingest.LoadKeywords`: skip the first record (`line > 0` guard), then for
    each nonempty record lowercase and trim its first field. -/
def LoadKeywords : List Row → List Str
  | [] => []
  | _hdr :: rest => rest.filterMap fun rec =>
      match rec with
      | [] => none
      | f :: _ => some (toLower (trimSpace f))

/-- `os.Open` outcome for a configuration file: `none` means unreadable. -/
abbrev FileInput := Option (List Row)

/-- main's `targets, _ := ingest.LoadTargets(...)`: the error return is
    discarded, so an unreadable file leaves the target list empty. -/
def mainTargets (file : FileInput) : List Target :=
  match file with
  | none => []
  | some rows => LoadTargets rows

/-! ### Worker pool (main.go worker loop) -/

/-- Tagger: for each keyword in configured order, append it to the Record's
    matched-keywords list when it is contained in the lowercased title
    (`strings.Contains(strings.ToLower(p.Title), k)`). -/
def tagPost (keywords : List Str) (p : Post) : Post :=
  let hits := keywords.foldl
    (fun hits k => if containsSub (toLower p.title) k then hits ++ [k] else hits)
    p.keywordsHit
  { p with keywordsHit := hits }

/-- Inclusion predicate `p.Score >= t.MinScore || len(p.KeywordsHit) > 0`. -/
def includePost (t : Target) (p : Post) : Bool :=
  decide (t.minScore ≤ p.score) || !p.keywordsHit.isEmpty

/-- Observable actions of a worker. -/
inductive Event
  | fetchCall (sub : Str) (limit : Nat)
  | logError (sub : Str) (msg : Str)
  | push (p : Post)
deriving DecidableEq, Repr

/-- The Fetch Adapter: `FetchNewPosts(ctx, sub, limit)`. -/
abbrev FetchFn := Str → Nat → Except Str (List Post)

/-- One iteration of the worker loop body for a dequeued Target: call the
    adapter with the fixed limit 25; on error log and stop for this target;
    on success tag every post and push those passing the inclusion check. -/
def workerBody (fetch : FetchFn) (keywords : List Str) (t : Target) : List Event :=
  Event.fetchCall t.subreddit 25 ::
    match fetch t.subreddit 25 with
    | .error e => [Event.logError t.subreddit e]
    | .ok posts =>
        ((posts.map (tagPost keywords)).filter (includePost t)).map Event.push

/-- The worker loop `for t := range jobQueue`: at the top of each iteration
    the `select` observes the cancellation signal (`cancelled n` is its
    visibility at the n-th dequeue); if set the worker returns at once,
    otherwise it runs the body and continues. -/
def workerRun (fetch : FetchFn) (keywords : List Str) (cancelled : Nat → Bool) :
    Nat → List Target → List Event
  | _, [] => []
  | n, t :: ts =>
      if cancelled n then []
      else workerBody fetch keywords t ++ workerRun fetch keywords cancelled (n + 1) ts

/-- A run in which cancellation is never asserted. -/
def noCancel : Nat → Bool := fun _ => false

/-- The adapter invocations recorded in an event list. -/
def fetchCalls (evts : List Event) : List (Str × Nat) :=
  evts.filterMap fun e =>
    match e with
    | .fetchCall s l => some (s, l)
    | _ => none

/-- The Records pushed onto the result queue in an event list. -/
def pushedPosts (evts : List Event) : List Post :=
  evts.filterMap fun e =>
    match e with
    | .push p => some p
    | _ => none

/-- The error log lines in an event list. -/
def loggedErrors (evts : List Event) : List (Str × Str) :=
  evts.filterMap fun e =>
    match e with
    | .logError s m => some (s, m)
    | _ => none

/-! ### Result Sink (storage.WriterService.Start) -/

/-- The drain loop `for post := range input`: one `enc.Encode(post)` per
    received Post; returns the lines written and the count consumed. -/
def writerLoop : List Post → List Post × Nat
  | [] => ([], 0)
  | p :: ps =>
      let r := writerLoop ps
      (p :: r.1, r.2 + 1)

/-- `WriterService.Start`: when opening the store fails the method returns
    immediately (no input consumed, nothing written, no error surfaced);
    otherwise it drains the closed queue writing one line per Record. -/
def writerStart (openFails : Bool) (input : List Post) : List Post × Nat :=
  if openFails then ([], 0) else writerLoop input

/-! ### Job Distributor (main.go enqueue) -/

/-- `make(chan domain.Target, len(targets))`. -/
def jobQueueCapacity (targets : List Target) : Nat := targets.length

/-- Producer-side actions on the work queue. -/
inductive ChanEvent
  | send (t : Target)
  | close
deriving DecidableEq, Repr

/-- main's enqueue section: send every target in order, then `close(jobQueue)`. -/
def enqueueJobs (targets : List Target) : List ChanEvent :=
  targets.map ChanEvent.send ++ [ChanEvent.close]

/-- A buffered-channel send blocks exactly when the buffer is full. -/
def sendWouldBlock (cap occupancy : Nat) : Bool := decide (cap ≤ occupancy)

/-! ### Concrete sample data used by the witnesses -/

def sampleTarget : Target := { subreddit := "golang".toList, minScore := 10 }

def samplePost : Post :=
  { id := "p1".toList, title := "New Docker release notes".toList,
    subreddit := "golang".toList, author := "alice".toList, url := "u".toList,
    score := 5, commentCount := 0, keywordsHit := [] }

def sampleKeywords : List Str := ["docker".toList]

def sampleFetch : FetchFn := fun _ _ => Except.ok [samplePost]

def failingFetch : FetchFn := fun _ _ => Except.error "timeout".toList

/-! ### Helper lemmas -/

theorem tagLoop_eq (title : Str) (ks : List Str) (init : List Str) :
    ks.foldl (fun hits k => if containsSub title k then hits ++ [k] else hits) init
      = init ++ ks.filter (fun k => containsSub title k) := by
  induction ks generalizing init with
  | nil => simp
  | cons k ks ih =>
    by_cases h : containsSub title k
    · simp [List.foldl_cons, List.filter_cons, h, ih]
    · simp [List.foldl_cons, List.filter_cons, h, ih]

theorem tagPost_keywordsHit (keywords : List Str) (p : Post) :
    (tagPost keywords p).keywordsHit
      = p.keywordsHit ++ keywords.filter (fun k => containsSub (toLower p.title) k) := by
  simp [tagPost, tagLoop_eq]

theorem tagPost_score (keywords : List Str) (p : Post) :
    (tagPost keywords p).score = p.score := rfl

theorem fetchCalls_append (l₁ l₂ : List Event) :
    fetchCalls (l₁ ++ l₂) = fetchCalls l₁ ++ fetchCalls l₂ :=
  List.filterMap_append l₁ l₂ _

theorem pushedPosts_append (l₁ l₂ : List Event) :
    pushedPosts (l₁ ++ l₂) = pushedPosts l₁ ++ pushedPosts l₂ :=
  List.filterMap_append l₁ l₂ _

theorem fetchCalls_map_push (ps : List Post) : fetchCalls (ps.map Event.push) = [] := by
  induction ps with
  | nil => rfl
  | cons p ps ih => simp [fetchCalls, List.filterMap_cons, ih]

theorem pushedPosts_map_push (ps : List Post) : pushedPosts (ps.map Event.push) = ps := by
  induction ps with
  | nil => rfl
  | cons p ps ih => simpa [pushedPosts, List.filterMap_cons] using ih

theorem fetchCalls_workerBody (fetch : FetchFn) (keywords : List Str) (t : Target) :
    fetchCalls (workerBody fetch keywords t) = [(t.subreddit, 25)] := by
  unfold workerBody
  cases h : fetch t.subreddit 25 with
  | error e => rfl
  | ok posts =>
    show fetchCalls (Event.fetchCall t.subreddit 25 :: _) = _
    rw [show (Event.fetchCall t.subreddit 25 :: ((posts.map (tagPost keywords)).filter
        (includePost t)).map Event.push : List Event)
      = [Event.fetchCall t.subreddit 25] ++ ((posts.map (tagPost keywords)).filter
        (includePost t)).map Event.push from rfl]
    rw [fetchCalls_append, fetchCalls_map_push]
    rfl

theorem pushedPosts_workerBody_ok (fetch : FetchFn) (keywords : List Str) (t : Target)
    (posts : List Post) (h : fetch t.subreddit 25 = Except.ok posts) :
    pushedPosts (workerBody fetch keywords t)
      = (posts.map (tagPost keywords)).filter (includePost t) := by
  unfold workerBody
  rw [h]
  rw [show (Event.fetchCall t.subreddit 25 :: ((posts.map (tagPost keywords)).filter
      (includePost t)).map Event.push : List Event)
    = [Event.fetchCall t.subreddit 25] ++ ((posts.map (tagPost keywords)).filter
      (includePost t)).map Event.push from rfl]
  rw [pushedPosts_append, pushedPosts_map_push]
  rfl

theorem includePost_eq_true_iff (t : Target) (p : Post) :
    includePost t p = true ↔ (t.minScore ≤ p.score ∨ p.keywordsHit ≠ []) := by
  simp [includePost, List.isEmpty_iff]

/-! ### Claim theorems -/

/-- C1: for a successful fetch, a Record is pushed onto the result queue iff
    its score reaches the Target's MinScore or its matched-keywords list is
    non-empty after tagging (logical OR). -/
theorem pushed_iff_score_or_keyword (fetch : FetchFn) (keywords : List Str) (t : Target)
    (posts : List Post) (hfetch : fetch t.subreddit 25 = Except.ok posts) (r : Post) :
    r ∈ pushedPosts (workerBody fetch keywords t) ↔
      r ∈ posts.map (tagPost keywords) ∧ (t.minScore ≤ r.score ∨ r.keywordsHit ≠ []) := by
  rw [pushedPosts_workerBody_ok fetch keywords t posts hfetch, List.mem_filter,
    includePost_eq_true_iff]

/-- Witness for C1: the sample low-score post with a keyword hit is pushed. -/
theorem pushed_iff_score_or_keyword_witness :
    tagPost sampleKeywords samplePost
      ∈ pushedPosts (workerBody sampleFetch sampleKeywords sampleTarget) :=
  (pushed_iff_score_or_keyword sampleFetch sampleKeywords sampleTarget
    [samplePost] rfl (tagPost sampleKeywords samplePost)).mpr (by decide)

/-- C2: on a Record fetched with an empty matched-keywords list, the tagger
    produces exactly the sublist of configured keywords contained
    (case-insensitively) in the title, keeping configured multiplicity: the
    result is a sub-multiset of the keyword list and each matching keyword
    appears once per occurrence in the configuration. -/
theorem tagger_count (keywords : List Str) (p : Post) (hinit : p.keywordsHit = []) :
    (tagPost keywords p).keywordsHit
        = keywords.filter (fun k => containsSub (toLower p.title) k) ∧
    List.Sublist (tagPost keywords p).keywordsHit keywords ∧
    ∀ k : Str, ((tagPost keywords p).keywordsHit).count k
        = if containsSub (toLower p.title) k then keywords.count k else 0 := by
  have h := tagPost_keywordsHit keywords p
  rw [hinit, List.nil_append] at h
  refine ⟨h, ?_, ?_⟩
  · rw [h]; exact List.filter_sublist keywords
  · intro k
    rw [h]
    by_cases hk : containsSub (toLower p.title) k
    · rw [if_pos hk, List.count_filter]
      exact hk
    · rw [if_neg hk, List.count_eq_zero]
      intro hmem
      exact hk (List.mem_filter.mp hmem).2

/-- Witness for C2: the keyword duplicated in configuration is tagged twice. -/
theorem tagger_count_witness :
    ((tagPost ["cve".toList, "cve".toList]
        { samplePost with title := "CVE-2024-1234 dropped".toList }).keywordsHit).count
      ("cve".toList) = 2 := by
  have h := (tagger_count ["cve".toList, "cve".toList]
    { samplePost with title := "CVE-2024-1234 dropped".toList } rfl).2.2 ("cve".toList)
  rw [h]
  decide

theorem workerRun_noCancel (fetch : FetchFn) (keywords : List Str) (n : Nat)
    (jobs : List Target) :
    workerRun fetch keywords noCancel n jobs
      = (jobs.map (workerBody fetch keywords)).flatten := by
  induction jobs generalizing n with
  | nil => rfl
  | cons t ts ih => simp [workerRun, noCancel, ih]

theorem fetchCalls_flatten (L : List (List Event)) :
    fetchCalls L.flatten = (L.map fetchCalls).flatten := by
  induction L with
  | nil => rfl
  | cons l ls ih => simp [List.flatten_cons, fetchCalls_append, ih]

theorem fetchCalls_workerRun_noCancel (fetch : FetchFn) (keywords : List Str) (n : Nat)
    (jobs : List Target) :
    fetchCalls (workerRun fetch keywords noCancel n jobs)
      = jobs.map (fun t => (t.subreddit, 25)) := by
  induction jobs generalizing n with
  | nil => rfl
  | cons t ts ih =>
    simp only [workerRun, noCancel, Bool.false_eq_true, if_false]
    rw [fetchCalls_append, fetchCalls_workerBody, ih]
    rfl

/-- C3: with M loaded Targets, no cancellation and all workers running to
    natural exit (each Target delivered to exactly one worker by the closed
    queue), the adapter is invoked exactly M times — once per Target with its
    source identifier — and every invocation carries the fixed limit 25. -/
theorem fetch_exactly_once_per_target (fetch : FetchFn) (keywords : List Str)
    (assign : List (List Target)) (targets : List Target)
    (hassign : assign.flatten.Perm targets) :
    ((assign.map fun jobs =>
        fetchCalls (workerRun fetch keywords noCancel 0 jobs)).flatten).Perm
      (targets.map fun t => (t.subreddit, 25)) ∧
    ((assign.map fun jobs =>
        fetchCalls (workerRun fetch keywords noCancel 0 jobs)).flatten).length
      = targets.length ∧
    ∀ c ∈ ((assign.map fun jobs =>
        fetchCalls (workerRun fetch keywords noCancel 0 jobs)).flatten), c.2 = 25 := by
  have key : (assign.map fun jobs => fetchCalls (workerRun fetch keywords noCancel 0 jobs))
      = assign.map (List.map fun t => (t.subreddit, 25)) := by
    simp [fetchCalls_workerRun_noCancel]
  have hperm : ((assign.map fun jobs =>
      fetchCalls (workerRun fetch keywords noCancel 0 jobs)).flatten).Perm
        (targets.map fun t => (t.subreddit, 25)) := by
    rw [key, ← List.map_flatten]
    exact hassign.map _
  refine ⟨hperm, ?_, ?_⟩
  · rw [hperm.length_eq, List.length_map]
  · intro c hc
    have hc' : c ∈ targets.map fun t => (t.subreddit, 25) := hperm.mem_iff.mp hc
    obtain ⟨t, _, rfl⟩ := List.mem_map.mp hc'
    rfl

/-- Witness for C3: two workers splitting three targets fetch each once. -/
theorem fetch_exactly_once_per_target_witness :
    (((([[sampleTarget], [{ subreddit := "rust".toList, minScore := 3 },
          { subreddit := "python".toList, minScore := 0 }]] : List (List Target)).map
        fun jobs => fetchCalls (workerRun sampleFetch sampleKeywords noCancel 0 jobs)).flatten).Perm
      (([sampleTarget, { subreddit := "rust".toList, minScore := 3 },
          { subreddit := "python".toList, minScore := 0 }] : List Target).map
        fun t => (t.subreddit, 25))) :=
  (fetch_exactly_once_per_target sampleFetch sampleKeywords
    [[sampleTarget], [{ subreddit := "rust".toList, minScore := 3 },
      { subreddit := "python".toList, minScore := 0 }]]
    [sampleTarget, { subreddit := "rust".toList, minScore := 3 },
      { subreddit := "python".toList, minScore := 0 }] (by decide)).1

/-- C4: when the adapter fails for a Target the worker logs the source with
    the error, pushes nothing for that Target, calls the adapter only once
    for it (no retry), and the loop continues with the remaining queued
    Targets unaffected. -/
theorem fetch_error_isolated (fetch : FetchFn) (keywords : List Str) (t : Target)
    (ts : List Target) (n : Nat) (e : Str)
    (herr : fetch t.subreddit 25 = Except.error e) :
    pushedPosts (workerBody fetch keywords t) = [] ∧
    loggedErrors (workerBody fetch keywords t) = [(t.subreddit, e)] ∧
    fetchCalls (workerBody fetch keywords t) = [(t.subreddit, 25)] ∧
    workerRun fetch keywords noCancel n (t :: ts)
      = workerBody fetch keywords t ++ workerRun fetch keywords noCancel (n + 1) ts := by
  refine ⟨?_, ?_, fetchCalls_workerBody fetch keywords t, ?_⟩
  · unfold workerBody; rw [herr]; rfl
  · unfold workerBody; rw [herr]; rfl
  · simp [workerRun, noCancel]

/-- Witness for C4: a concrete failing fetch produces one log, no pushes. -/
theorem fetch_error_isolated_witness :
    pushedPosts (workerBody failingFetch sampleKeywords sampleTarget) = [] ∧
    loggedErrors (workerBody failingFetch sampleKeywords sampleTarget)
      = [(sampleTarget.subreddit, "timeout".toList)] ∧
    fetchCalls (workerBody failingFetch sampleKeywords sampleTarget)
      = [(sampleTarget.subreddit, 25)] ∧
    workerRun failingFetch sampleKeywords noCancel 0 [sampleTarget, sampleTarget]
      = workerBody failingFetch sampleKeywords sampleTarget
        ++ workerRun failingFetch sampleKeywords noCancel 1 [sampleTarget] :=
  fetch_error_isolated failingFetch sampleKeywords sampleTarget [sampleTarget] 0
    ("timeout".toList) rfl

theorem workerRun_stops_when_cancelled (fetch : FetchFn) (keywords : List Str)
    (c : Nat → Bool) (n : Nat) (jobs : List Target) (h : c n = true) :
    workerRun fetch keywords c n jobs = [] := by
  cases jobs with
  | nil => rfl
  | cons t ts => simp [workerRun, h]

theorem workerRun_take (fetch : FetchFn) (keywords : List Str) (c : Nat → Bool)
    (K n : Nat) (jobs : List Target) (hvis : ∀ m, K + n ≤ m → c m = true) :
    workerRun fetch keywords c n jobs = workerRun fetch keywords c n (jobs.take K) := by
  induction jobs generalizing n K with
  | nil => simp
  | cons t ts ih =>
    cases K with
    | zero =>
      have hc : c n = true := hvis n (by omega)
      rw [List.take_zero, workerRun_stops_when_cancelled fetch keywords c n _ hc]
      rfl
    | succ K' =>
      by_cases hc : c n = true
      · rw [workerRun_stops_when_cancelled fetch keywords c n _ hc,
          workerRun_stops_when_cancelled fetch keywords c n _ hc]
      · rw [List.take_succ_cons]
        show (if c n = true then _ else _) = (if c n = true then _ else _)
        rw [if_neg hc, if_neg hc]
        rw [ih K' (n + 1) fun m hm => hvis m (by omega)]

theorem length_fetchCalls_workerRun_le (fetch : FetchFn) (keywords : List Str)
    (c : Nat → Bool) (n : Nat) (jobs : List Target) :
    (fetchCalls (workerRun fetch keywords c n jobs)).length ≤ jobs.length := by
  induction jobs generalizing n with
  | nil => simp [workerRun, fetchCalls]
  | cons t ts ih =>
    by_cases hc : c n = true
    · rw [workerRun_stops_when_cancelled fetch keywords c n _ hc]
      simp [fetchCalls]
    · show (fetchCalls (if c n = true then _ else _)).length ≤ _
      rw [if_neg hc, fetchCalls_append, fetchCalls_workerBody]
      simpa using ih (n + 1)

/-- C5: each worker observes the cancellation signal at the top of every
    iteration and stops at once when it is set; a worker whose signal is
    visible from its Kᵢ-th dequeue onward behaves exactly as if only its
    first Kᵢ dequeued Targets existed, so across the pool no more than
    K = ΣKᵢ Targets are passed to the Fetch Adapter and the rest produce
    zero output. -/
theorem cancellation_bounds_fetches (fetch : FetchFn) (keywords : List Str)
    (ws : List ((Nat → Bool) × List Target × Nat))
    (hvis : ∀ w ∈ ws, ∀ n, w.2.2 ≤ n → w.1 n = true) :
    (∀ w ∈ ws,
        workerRun fetch keywords w.1 0 w.2.1
          = workerRun fetch keywords w.1 0 (w.2.1.take w.2.2) ∧
        (w.1 0 = true → workerRun fetch keywords w.1 0 w.2.1 = []) ∧
        (fetchCalls (workerRun fetch keywords w.1 0 w.2.1)).length ≤ w.2.2) ∧
    (ws.map fun w => (fetchCalls (workerRun fetch keywords w.1 0 w.2.1)).length).sum
      ≤ (ws.map fun w => w.2.2).sum := by
  have single : ∀ w ∈ ws,
      workerRun fetch keywords w.1 0 w.2.1
        = workerRun fetch keywords w.1 0 (w.2.1.take w.2.2) ∧
      (w.1 0 = true → workerRun fetch keywords w.1 0 w.2.1 = []) ∧
      (fetchCalls (workerRun fetch keywords w.1 0 w.2.1)).length ≤ w.2.2 := by
    intro w hw
    have htake := workerRun_take fetch keywords w.1 w.2.2 0 w.2.1
      fun m hm => hvis w hw m (by omega)
    refine ⟨htake, fun h0 => workerRun_stops_when_cancelled fetch keywords w.1 0 _ h0, ?_⟩
    rw [htake]
    calc (fetchCalls (workerRun fetch keywords w.1 0 (w.2.1.take w.2.2))).length
        ≤ (w.2.1.take w.2.2).length := length_fetchCalls_workerRun_le fetch keywords w.1 0 _
      _ ≤ w.2.2 := by simp [List.length_take]
  exact ⟨single, List.sum_le_sum fun w hw => (single w hw).2.2⟩

/-- Witness for C5: a signal visible from the second dequeue onward limits a
    three-target worker to at most one fetch. -/
theorem cancellation_bounds_fetches_witness :
    (([((fun n => decide (1 ≤ n), [sampleTarget, sampleTarget, sampleTarget], 1))] :
        List ((Nat → Bool) × List Target × Nat)).map
      fun w => (fetchCalls (workerRun sampleFetch sampleKeywords w.1 0 w.2.1)).length).sum
      ≤ (([((fun n => decide (1 ≤ n), [sampleTarget, sampleTarget, sampleTarget], 1))] :
        List ((Nat → Bool) × List Target × Nat)).map fun w => w.2.2).sum :=
  (cancellation_bounds_fetches sampleFetch sampleKeywords
    [((fun n => decide (1 ≤ n), [sampleTarget, sampleTarget, sampleTarget], 1))]
    (by intro w hw n hn
        rcases List.mem_singleton.mp hw with rfl
        simpa using hn)).2

theorem loadTargets_filterMap_eq (rest : List Row) :
    rest.filterMap rowToTarget
      = (rest.filter fun rec => subNameOk (trimSpace (rec.headD []))).map
          fun rec => { subreddit := trimSpace (rec.headD []),
                       minScore := (atoi (trimSpace (rec.getD 1 []))).getD 0 } := by
  induction rest with
  | nil => rfl
  | cons rec rest ih =>
    rw [List.filterMap_cons, List.filter_cons]
    by_cases h : subNameOk (trimSpace (rec.headD [])) = true
    · have hr : rowToTarget rec = some (⟨trimSpace (rec.headD []),
          (atoi (trimSpace (rec.getD 1 []))).getD 0⟩ : Target) := by
        simp only [rowToTarget]
        rw [if_pos h]
      simp only [hr, if_pos h, List.map_cons, ih]
    · have hr : rowToTarget rec = none := by
        simp only [rowToTarget]
        rw [if_neg h]
      simp only [hr, if_neg h, ih]

/-- C6 counterexample: a data row whose identifier is valid but whose score
    field is unparsable is NOT silently skipped — `strconv.Atoi`'s error is
    discarded and the row is loaded as a Target with MinScore 0. -/
theorem loadTargets_unparsable_score_loaded :
    LoadTargets [["subreddit".toList, "min".toList], ["golang".toList, "abc".toList]]
      = [{ subreddit := "golang".toList, minScore := 0 }] := by decide

/-- C6 amended: LoadTargets silently skips exactly the rows whose source
    identifier fails the format check; a row with a valid identifier but an
    unparsable minimum-score field is kept with MinScore 0; an unreadable
    file yields an empty target list at the pipeline level, not a fatal
    error. -/
theorem loadTargets_fail_soft (hdr : Row) (rest : List Row) :
    LoadTargets (hdr :: rest)
      = (rest.filter fun rec => subNameOk (trimSpace (rec.headD []))).map
          (fun rec => { subreddit := trimSpace (rec.headD []),
                        minScore := (atoi (trimSpace (rec.getD 1 []))).getD 0 }) ∧
    (∀ t ∈ LoadTargets (hdr :: rest), subNameOk t.subreddit = true) ∧
    mainTargets none = [] := by
  refine ⟨loadTargets_filterMap_eq rest, ?_, rfl⟩
  intro t ht
  rw [show LoadTargets (hdr :: rest) = rest.filterMap rowToTarget from rfl,
    loadTargets_filterMap_eq rest] at ht
  obtain ⟨rec, hrec, rfl⟩ := List.mem_map.mp ht
  exact (List.mem_filter.mp hrec).2

/-- Witness for C6 (amended): concrete file with one invalid-identifier row
    and one unparsable-score row — the invalid identifier is dropped, the
    unparsable score is kept with MinScore 0. -/
theorem loadTargets_fail_soft_witness :
    LoadTargets (["subreddit".toList, "min".toList] ::
        [["golang".toList, "abc".toList], ["x!".toList, "5".toList]])
      = ([["golang".toList, "abc".toList], ["x!".toList, "5".toList]].filter
          fun rec => subNameOk (trimSpace (rec.headD []))).map
          (fun rec => { subreddit := trimSpace (rec.headD []),
                        minScore := (atoi (trimSpace (rec.getD 1 []))).getD 0 }) :=
  (loadTargets_fail_soft ["subreddit".toList, "min".toList]
    [["golang".toList, "abc".toList], ["x!".toList, "5".toList]]).1

/-- C7: with the store open the Sink writes exactly one serialized line per
    received Record, in arrival order, returning only once the closed queue
    is fully drained; when opening the store fails it returns immediately,
    consuming nothing and surfacing no error. -/
theorem writer_one_line_per_record (input : List Post) :
    (writerStart false input).1 = input ∧
    (writerStart false input).2 = input.length ∧
    writerStart true input = ([], 0) := by
  have h : writerLoop input = (input, input.length) := by
    induction input with
    | nil => rfl
    | cons p ps ih => simp [writerLoop, ih]
  exact ⟨by simp [writerStart, h], by simp [writerStart, h], rfl⟩

/-- C8: the work queue's capacity is exactly the target-list length, so every
    send finds a free slot whatever the workers have drained so far; the
    producer's action sequence is the M sends followed by the single close,
    which is its last action and the only close signal. -/
theorem jobQueue_bounded_nonblocking (targets : List Target) (i r : Nat)
    (hi : i < targets.length) (hr : r ≤ i) :
    jobQueueCapacity targets = targets.length ∧
    sendWouldBlock (jobQueueCapacity targets) (i - r) = false ∧
    enqueueJobs targets = targets.map ChanEvent.send ++ [ChanEvent.close] ∧
    (enqueueJobs targets).getLast? = some ChanEvent.close ∧
    (enqueueJobs targets).count ChanEvent.close = 1 := by
  refine ⟨rfl, ?_, rfl, by simp [enqueueJobs], ?_⟩
  · simp only [sendWouldBlock, jobQueueCapacity, decide_eq_false_iff_not]
    omega
  · rw [enqueueJobs, List.count_append]
    have hz : (targets.map ChanEvent.send).count ChanEvent.close = 0 := by
      rw [List.count_eq_zero]
      intro hmem
      obtain ⟨t, _, ht⟩ := List.mem_map.mp hmem
      exact ChanEvent.noConfusion ht
    rw [hz]
    decide

/-- Witness for C8: two targets, second send with nothing yet received. -/
theorem jobQueue_bounded_nonblocking_witness :
    sendWouldBlock (jobQueueCapacity [sampleTarget, sampleTarget]) (1 - 0) = false :=
  (jobQueue_bounded_nonblocking [sampleTarget, sampleTarget] 1 0 (by decide)
    (by decide)).2.1

/-- C9: a non-blank keywords row whose first field is whitespace-only yields
    the empty keyword; the empty string is contained in every title, so every
    Record gets tagged with it and passes the inclusion predicate regardless
    of score and threshold. -/
theorem empty_keyword_includes_everything (hdr : Row) (rest : List Row)
    (f : Str) (fs : List Str) (hmem : (f :: fs) ∈ rest) (hws : trimSpace f = []) :
    [] ∈ LoadKeywords (hdr :: rest) ∧
    ∀ (t : Target) (p : Post),
      (tagPost (LoadKeywords (hdr :: rest)) p).keywordsHit ≠ [] ∧
      includePost t (tagPost (LoadKeywords (hdr :: rest)) p) = true := by
  have hk : ([] : Str) ∈ LoadKeywords (hdr :: rest) := by
    show ([] : Str) ∈ rest.filterMap _
    rw [List.mem_filterMap]
    refine ⟨f :: fs, hmem, ?_⟩
    show some (toLower (trimSpace f)) = some []
    rw [hws]
    rfl
  refine ⟨hk, fun t p => ?_⟩
  have hpred : containsSub (toLower p.title) [] = true := by
    unfold containsSub
    rw [decide_eq_true_iff]
    exact ⟨[], toLower p.title, by simp⟩
  have hfe : ([] : Str) ∈ (LoadKeywords (hdr :: rest)).filter
      (fun k => containsSub (toLower p.title) k) := List.mem_filter.mpr ⟨hk, hpred⟩
  have hne : (tagPost (LoadKeywords (hdr :: rest)) p).keywordsHit ≠ [] := by
    rw [tagPost_keywordsHit]
    intro hcontra
    rw [List.append_eq_nil] at hcontra
    rw [hcontra.2] at hfe
    exact List.not_mem_nil _ hfe
  exact ⟨hne, (includePost_eq_true_iff t _).mpr (Or.inr hne)⟩

/-- Witness for C9: a keywords file with one whitespace-only row forces even
    the low-score sample post past the high-threshold sample target. -/
theorem empty_keyword_includes_everything_witness :
    includePost sampleTarget
      (tagPost (LoadKeywords (["keyword".toList] :: [[" ".toList]])) samplePost) = true :=
  ((empty_keyword_includes_everything ["keyword".toList] [[" ".toList]]
    (" ".toList) [] (by decide) (by decide)).2 sampleTarget samplePost).2

/-- C10: both loaders unconditionally treat the first record as a header:
    their output never depends on it, and a file holding a single
    well-formed data row yields no Target and no keyword. -/
theorem first_row_never_loaded (r r' : Row) (rest : List Row) :
    LoadTargets (r :: rest) = LoadTargets (r' :: rest) ∧
    LoadKeywords (r :: rest) = LoadKeywords (r' :: rest) ∧
    LoadTargets [r] = [] ∧
    LoadKeywords [r] = [] :=
  ⟨rfl, rfl, rfl, rfl⟩

end RedditScraper
